import Mathlib

/-!
Verification of the message search / aggregation query layer of the
crypto-grant-wire archive site, as implemented in `src/server/db.ts`.

The relational store is modelled as explicit lists of rows; the SQL queries
issued by `searchMessages`, `getCategories`, `getTotalMessageCount` and
`getSearchSuggestions` are translated join-for-join and filter-for-filter
into executable Lean functions.  PostgreSQL full-text-search primitives
(`@@ plainto_tsquery`, `ts_rank`) are database internals, not repository
code, so they enter the model as an abstract pair of functions
(`FtsSemantics`); `LIKE` / `ILIKE` pattern matching is modelled concretely,
wildcards included.  A pool that cannot be obtained is `Env.pool = none`;
a query that throws (and is caught by the layer) is `DB.queryFails = true`.
-/

namespace GrantWire

/-- Row of the `messages` table: identifier, timestamp, raw text, extracted URLs. -/
structure Message where
  id : Nat
  timestamp : Int
  raw_content : String
  extracted_urls : Option (List String)
deriving DecidableEq, Repr

/-- Structured entity bag stored in `summaries.entities` (only the fields the
query layer reads: `protocols` and `key_terms`). -/
structure Entities where
  protocols : Option (List String)
  key_terms : Option (List String)
deriving DecidableEq, Repr

/-- Row of the `summaries` table. -/
structure Summary where
  id : Nat
  message_id : Nat
  title : Option String
  summary : Option String
  entities : Option Entities
  category_id : Option Nat
deriving DecidableEq, Repr

/-- Row of the `categories` table. -/
structure Category where
  id : Nat
  name : String
deriving DecidableEq, Repr

/-- Row of the `review_queue` side table. -/
structure ReviewItem where
  summary_id : Nat
  status : String
deriving DecidableEq, Repr

/-- The relational store.  `ftsAvailable` models the `search_vector` column
probe of `isFtsAvailable` (db.ts:450-468); `queryFails` models issued queries
throwing, which every function catches (db.ts:617-620 etc.). -/
structure DB where
  messages : List Message
  summaries : List Summary
  categories : List Category
  review_queue : List ReviewItem
  ftsAvailable : Bool
  queryFails : Bool
deriving DecidableEq, Repr

/-- Abstract semantics of the PostgreSQL full-text primitives used at
db.ts:506 and db.ts:537: `ftsMatch s q` is `s.search_vector @@
plainto_tsquery('english', q)` and `tsRank s q` is `ts_rank(s.search_vector,
plainto_tsquery('english', q))`. -/
structure FtsSemantics where
  ftsMatch : Summary → String → Bool
  tsRank : Summary → String → Int

/-- Execution environment: the connection pool (or its absence) plus the
database engine's full-text semantics. -/
structure Env where
  pool : Option DB
  sem : FtsSemantics

/-- Lowercasing of a string, character by character (models both JavaScript
`toLowerCase` and SQL `LOWER` on the ASCII data used here). -/
def lowerStr (s : String) : String := ⟨s.data.map Char.toLower⟩

/-- PostgreSQL `LIKE` pattern matching over character lists: `%` matches any
sequence, `_` any single character, a backslash escapes the following pattern
character, and every other character matches itself. -/
def likeChars : List Char → List Char → Bool
  | [], t => t.isEmpty
  | p :: ps, t =>
    if p == '%' then (t.tails).any (fun s => likeChars ps s)
    else if p == '_' then !t.isEmpty && likeChars ps t.tail
    else if p == '\\' then
      match ps with
      | [] => false
      | pe :: ps2 => (t.head?.elim false (fun c => c == pe)) && likeChars ps2 t.tail
    else (t.head?.elim false (fun c => c == p)) && likeChars ps t.tail

/-- SQL `LIKE` on strings. -/
def likeStr (pat s : String) : Bool := likeChars pat.data s.data

/-- SQL `ILIKE`: case-insensitive `LIKE`. -/
def ilike (pat s : String) : Bool := likeStr (lowerStr pat) (lowerStr s)

/-- Character-list prefix test (used to state the spec-level notion of
"starts with"). -/
def isPrefixChars : List Char → List Char → Bool
  | [], _ => true
  | _ :: _, [] => false
  | p :: ps, c :: ts => c == p && isPrefixChars ps ts

/-- Character-list substring occurrence test. -/
def containsChars (q : List Char) : List Char → Bool
  | [] => isPrefixChars q []
  | c :: ts => isPrefixChars q (c :: ts) || containsChars q ts

/-- Case-insensitive substring occurrence (the spec-level reading of the
`ILIKE '%q%'` fallback). -/
def ciContains (q s : String) : Bool :=
  containsChars (lowerStr q).data (lowerStr s).data

/-- The lowercase form of `t` starts with the lowercase form of `pfx`
(the spec-level reading of `LOWER(term) LIKE lowerPfx || '%'`). -/
def lowerStartsWith (pfx t : String) : Bool :=
  isPrefixChars (lowerStr pfx).data (lowerStr t).data

/-- A character with no special meaning in a `LIKE` pattern. -/
def plainChar (c : Char) : Bool := !(c == '%' || c == '_' || c == '\\')

/-- A string free of `LIKE` wildcard and escape characters. -/
def plainPat (s : String) : Bool := s.data.all plainChar

/-- A row of the three-way join built by `searchMessages` (db.ts:557-559):
`FROM messages m LEFT JOIN summaries s ON s.message_id = m.id LEFT JOIN
categories c ON s.category_id = c.id`. -/
structure Row where
  msg : Message
  summ : Option Summary
  cat : Option Category
deriving DecidableEq, Repr

/-- Join partners of one message under `LEFT JOIN summaries s ON
s.message_id = m.id`: one pair per matching summary, or a single
null-summary pair when none matches. -/
def msgRowsFor (db : DB) (m : Message) : List (Message × Option Summary) :=
  match db.summaries.filter (fun s => s.message_id == m.id) with
  | [] => [(m, none)]
  | ss => ss.map (fun s => (m, some s))

/-- The `messages LEFT JOIN summaries` relation (db.ts:557-558). -/
def msgSummJoin (db : DB) : List (Message × Option Summary) :=
  db.messages.flatMap (msgRowsFor db)

/-- Category join partners of one message/summary pair under `LEFT JOIN
categories c ON s.category_id = c.id` (db.ts:559): a SQL-null
`s.category_id` matches no category. -/
def rowsForPair (db : DB) (pr : Message × Option Summary) : List Row :=
  match pr.2 with
  | none => [⟨pr.1, none, none⟩]
  | some s =>
    match db.categories.filter (fun c => some c.id == s.category_id) with
    | [] => [⟨pr.1, some s, none⟩]
    | cs => cs.map (fun c => ⟨pr.1, some s, some c⟩)

/-- The full three-way join of db.ts:557-559. -/
def joinRows (db : DB) : List Row :=
  (msgSummJoin db).flatMap (rowsForPair db)

/-- Arguments of `searchMessages` (db.ts:475-479). -/
structure SearchParams where
  query : Option String
  categories : Option (List String)
  cursor : Option Nat
  limit : Option Nat
deriving Repr

/-- Effective page size, `params.limit || 20` (db.ts:487): an omitted limit
and the falsy limit `0` both mean 20. -/
def limitEff (p : SearchParams) : Nat :=
  match p.limit with
  | none => 20
  | some n => if n == 0 then 20 else n

/-- Effective cursor, `if (params.cursor)` (db.ts:496): an omitted cursor and
the falsy cursor `0` both mean "no cursor condition". -/
def cursorEff (p : SearchParams) : Option Nat :=
  match p.cursor with
  | none => none
  | some c => if c == 0 then none else some c

/-- Effective query, `if (params.query)` (db.ts:493, 503): an omitted query
and the falsy empty string both mean "no text filter". -/
def queryEff (p : SearchParams) : Option String :=
  match p.query with
  | none => none
  | some q => if q == "" then none else some q

/-- Effective category set, `params.categories && params.categories.length > 0`
(db.ts:518): omitted and empty both mean "no category filter". -/
def categoriesEff (p : SearchParams) : Option (List String) :=
  match p.categories with
  | none => none
  | some cs => if cs.isEmpty then none else some cs

/-- Cursor condition `m.id < $cursor` (db.ts:497). -/
def cursorCond (cur : Option Nat) (r : Row) : Bool :=
  match cur with
  | none => true
  | some c => decide (r.msg.id < c)

/-- Full-text query condition (db.ts:506): `s.search_vector @@
plainto_tsquery('english', $q)`; the SQL-null vector of a missing summary
never matches. -/
def ftsQueryCond (sem : FtsSemantics) (q : String) (r : Row) : Bool :=
  match r.summ with
  | some s => sem.ftsMatch s q
  | none => false

/-- Fallback query condition (db.ts:511): `s.summary ILIKE '%q%' OR
m.raw_content ILIKE '%q%'`; a SQL-null summary leaves only the raw-content
disjunct. -/
def fallbackQueryCond (q : String) (r : Row) : Bool :=
  (match r.summ with
   | some s =>
     match s.summary with
     | some t => ilike ("%" ++ q ++ "%") t
     | none => false
   | none => false) ||
  ilike ("%" ++ q ++ "%") r.msg.raw_content

/-- Text condition of db.ts:503-515: full-text when the index is available
(`useFts`, db.ts:493), `ILIKE` fallback otherwise, nothing when no query. -/
def queryCond (sem : FtsSemantics) (db : DB) (p : SearchParams) (r : Row) : Bool :=
  match queryEff p with
  | none => true
  | some q => if db.ftsAvailable then ftsQueryCond sem q r else fallbackQueryCond q r

/-- Category condition `c.name IN (...)` (db.ts:518-523); a row without a
joined category never satisfies `IN`. -/
def categoryCond (p : SearchParams) (r : Row) : Bool :=
  match categoriesEff p with
  | none => true
  | some cs =>
    match r.cat with
    | some c => cs.contains c.name
    | none => false

/-- Membership of a summary in the review queue with status 'pending'
(subquery of db.ts:526-529 and db.ts:591-594). -/
def summaryPending (db : DB) (s : Summary) : Bool :=
  db.review_queue.any (fun rq => rq.summary_id == s.id && rq.status == "pending")

/-- The `NOT EXISTS` pending-review test for a join row: a row without a
summary has a SQL-null `s.id`, which the subquery never matches. -/
def rowPending (db : DB) (r : Row) : Bool :=
  match r.summ with
  | some s => summaryPending db s
  | none => false

/-- WHERE clause of the count query (db.ts:566-596): text filter, category
filter and the pending-review exclusion, without the cursor. -/
def countCond (sem : FtsSemantics) (db : DB) (p : SearchParams) (r : Row) : Bool :=
  queryCond sem db p r && categoryCond p r && !rowPending db r

/-- WHERE clause of the page query (db.ts:495-531): the cursor condition
conjoined with the same text/category/pending filters. -/
def pageCond (sem : FtsSemantics) (db : DB) (p : SearchParams) (r : Row) : Bool :=
  cursorCond (cursorEff p) r && countCond sem db p r

/-- Relevance term of the ORDER BY key (db.ts:533-542): `ts_rank(...)` when a
query is active and the index is available, a constant otherwise. -/
def rankVal (sem : FtsSemantics) (db : DB) (p : SearchParams) (r : Row) : Int :=
  match queryEff p with
  | some q =>
    if db.ftsAvailable then
      match r.summ with
      | some s => sem.tsRank s q
      | none => 0
    else 0
  | none => 0

/-- Row `a` sorts no later than row `b` under `ORDER BY rank DESC,
m.timestamp DESC, m.id DESC` (db.ts:537 / db.ts:541; `k` is the rank term,
constantly `0` when no ranking is active). -/
def rowBefore (k : Row → Int) (a b : Row) : Prop :=
  k b < k a ∨
    (k b = k a ∧
      (b.msg.timestamp < a.msg.timestamp ∨
        (b.msg.timestamp = a.msg.timestamp ∧ b.msg.id ≤ a.msg.id)))

instance rowBefore.decRel (k : Row → Int) : DecidableRel (rowBefore k) := by
  unfold rowBefore
  intro a b
  infer_instance

instance rowBefore.isTotal (k : Row → Int) : IsTotal Row (rowBefore k) := by
  constructor
  intro a b
  unfold rowBefore
  omega

instance rowBefore.isTrans (k : Row → Int) : IsTrans Row (rowBefore k) := by
  constructor
  intro a b c
  unfold rowBefore
  omega

/-- The filtered row set of the page query, before ordering. -/
def searchVisible (sem : FtsSemantics) (db : DB) (p : SearchParams) : List Row :=
  (joinRows db).filter (pageCond sem db p)

/-- The page query's ordered result (db.ts:533-542, modelled with a
deterministic sort realising the ORDER BY key). -/
def searchSorted (sem : FtsSemantics) (db : DB) (p : SearchParams) : List Row :=
  List.insertionSort (rowBefore (rankVal sem db p)) (searchVisible sem db p)

/-- The rows actually fetched: `LIMIT limit + 1` (db.ts:562-564). -/
def searchFetched (sem : FtsSemantics) (db : DB) (p : SearchParams) : List Row :=
  (searchSorted sem db p).take (limitEff p + 1)

/-- The returned page, `rows.slice(0, limit)` (db.ts:611). -/
def searchPage (sem : FtsSemantics) (db : DB) (p : SearchParams) : List Row :=
  (searchFetched sem db p).take (limitEff p)

/-- The row set of the count query (db.ts:597-603). -/
def countRows (sem : FtsSemantics) (db : DB) (p : SearchParams) : List Row :=
  (joinRows db).filter (countCond sem db p)

/-- The SELECT list of db.ts:546-556, one output record per join row
(interface `MessageWithSummary`, db.ts:420-436). -/
structure MessageWithSummary where
  id : Nat
  timestamp : Int
  rawContent : String
  extractedUrls : Option (List String)
  title : Option String
  summary : Option String
  entities : Option Entities
  categoryId : Option Nat
  categoryName : Option String
deriving DecidableEq, Repr

def projectRow (r : Row) : MessageWithSummary :=
  { id := r.msg.id
    timestamp := r.msg.timestamp
    rawContent := r.msg.raw_content
    extractedUrls := r.msg.extracted_urls
    title := r.summ.bind (fun s => s.title)
    summary := r.summ.bind (fun s => s.summary)
    entities := r.summ.bind (fun s => s.entities)
    categoryId := r.summ.bind (fun s => s.category_id)
    categoryName := r.cat.map (fun c => c.name) }

/-- Return shape of `searchMessages` (db.ts:480). -/
structure SearchResult where
  messages : List MessageWithSummary
  nextCursor : Option Nat
  total : Nat
deriving DecidableEq, Repr

def emptySearchResult : SearchResult := ⟨[], none, 0⟩

/-- The `searchMessages` function (db.ts:475-621).  A missing pool
(db.ts:481-485) and failing queries (db.ts:617-620) both yield the empty
result; otherwise the page is `rows.slice(0, limit)` of the `limit + 1`
fetch, `nextCursor` is the id of the last page row when an extra row was
fetched (db.ts:611-613), and `total` comes from the cursor-free count query
(db.ts:614). -/
def searchMessages (env : Env) (p : SearchParams) : SearchResult :=
  match env.pool with
  | none => emptySearchResult
  | some db =>
    if db.queryFails then emptySearchResult
    else
      let msgs := (searchPage env.sem db p).map projectRow
      { messages := msgs
        nextCursor :=
          if decide (limitEff p < (searchFetched env.sem db p).length) && !msgs.isEmpty then
            (msgs.getLast?).map (fun m => m.id)
          else none
        total := (countRows env.sem db p).length }

/-- Rows of the count in `getTotalMessageCount` (db.ts:672-681):
`messages LEFT JOIN summaries` under the pending-review exclusion. -/
def totalCountRows (db : DB) : List (Message × Option Summary) :=
  (msgSummJoin db).filter (fun pr =>
    match pr.2 with
    | some s => !summaryPending db s
    | none => true)

/-- The `getTotalMessageCount` function (db.ts:666-687). -/
def getTotalMessageCount (env : Env) : Nat :=
  match env.pool with
  | none => 0
  | some db => if db.queryFails then 0 else (totalCountRows db).length

/-- Return shape of `getCategories` (db.ts:438-442). -/
structure CategoryWithCount where
  id : Nat
  name : String
  count : Nat
deriving DecidableEq, Repr

/-- Join partners of one category under `LEFT JOIN summaries s ON
s.category_id = c.id AND NOT EXISTS (pending)` (db.ts:640-644). -/
def catRowsFor (db : DB) (c : Category) : List (Category × Option Summary) :=
  match db.summaries.filter (fun s => s.category_id == some c.id && !summaryPending db s) with
  | [] => [(c, none)]
  | ss => ss.map (fun s => (c, some s))

/-- The `categories LEFT JOIN summaries` relation of `getCategories`. -/
def catJoinRows (db : DB) : List (Category × Option Summary) :=
  db.categories.flatMap (catRowsFor db)

/-- Output entry `a` sorts no later than `b` under `ORDER BY count DESC`
(db.ts:646). -/
def catBefore (a b : CategoryWithCount) : Prop := b.count ≤ a.count

instance catBefore.decRel : DecidableRel catBefore := by
  unfold catBefore
  intro a b
  infer_instance

instance catBefore.isTotal : IsTotal CategoryWithCount catBefore := by
  constructor
  intro a b
  unfold catBefore
  omega

instance catBefore.isTrans : IsTrans CategoryWithCount catBefore := by
  constructor
  intro a b c
  unfold catBefore
  omega

/-- The `getCategories` function (db.ts:627-660): `GROUP BY c.id, c.name`
with `COUNT(s.id)` (which skips SQL-null summary ids), `ORDER BY count
DESC`. -/
def getCategories (env : Env) : List CategoryWithCount :=
  match env.pool with
  | none => []
  | some db =>
    if db.queryFails then []
    else
      let keys := (db.categories.map (fun c => (c.id, c.name))).dedup
      let grouped := keys.map (fun k =>
        ({ id := k.1
           name := k.2
           count := ((catJoinRows db).filter (fun pr =>
             pr.1.id == k.1 && pr.1.name == k.2 && pr.2.isSome)).length } : CategoryWithCount))
      List.insertionSort catBefore grouped

/-- Suggestion kinds, the `type` column of db.ts:717, 724, 730. -/
inductive SuggestionKind where
  | protocol
  | term
  | category
deriving DecidableEq, Repr

/-- Return shape of `getSearchSuggestions` (db.ts:689-693); `kind` models
the `type` field. -/
structure SearchSuggestion where
  term : String
  frequency : Nat
  kind : SuggestionKind
deriving DecidableEq, Repr

/-- Arguments of `getSearchSuggestions` (db.ts:699-702); `pfx` models
`prefix`. -/
structure SuggestParams where
  pfx : String
  limit : Option Nat
deriving Repr

/-- Effective suggestion limit, `params.limit || 8` (db.ts:709). -/
def suggLimitEff (lim : Option Nat) : Nat :=
  match lim with
  | none => 8
  | some n => if n == 0 then 8 else n

/-- The `all_terms` pool of db.ts:714-738: every entry of every summary's
`protocols` list, every entry of every summary's `key_terms` list, and every
category name; SQL-null `entities` or missing keys contribute nothing. -/
def suggestionPool (db : DB) : List (String × SuggestionKind) :=
  (db.summaries.flatMap (fun s =>
    match s.entities with
    | some e =>
      match e.protocols with
      | some ps => ps.map (fun t => (t, SuggestionKind.protocol))
      | none => []
    | none => [])) ++
  (db.summaries.flatMap (fun s =>
    match s.entities with
    | some e =>
      match e.key_terms with
      | some ts => ts.map (fun t => (t, SuggestionKind.term))
      | none => []
    | none => [])) ++
  (db.categories.map (fun c => (c.name, SuggestionKind.category)))

/-- Term filter of db.ts:744-745: `LOWER(term) LIKE $1 || '%'` (where `$1`
is the lowercased prefix) `AND LENGTH(term) >= 2`. -/
def suggestionOk (pfxLower : String) (t : String) : Bool :=
  likeStr (pfxLower ++ "%") (lowerStr t) && decide (2 ≤ t.length)

/-- Suggestion `a` sorts no later than `b` under `ORDER BY frequency DESC,
LENGTH(term) ASC` (db.ts:747). -/
def suggBefore (a b : SearchSuggestion) : Prop :=
  b.frequency < a.frequency ∨
    (b.frequency = a.frequency ∧ a.term.length ≤ b.term.length)

instance suggBefore.decRel : DecidableRel suggBefore := by
  unfold suggBefore
  intro a b
  infer_instance

instance suggBefore.isTotal : IsTotal SearchSuggestion suggBefore := by
  constructor
  intro a b
  unfold suggBefore
  omega

instance suggBefore.isTrans : IsTrans SearchSuggestion suggBefore := by
  constructor
  intro a b c
  unfold suggBefore
  omega

/-- The `getSearchSuggestions` function (db.ts:699-762): filter the pool by
lowercased-prefix `LIKE` and minimum length, `GROUP BY term, type` with
`COUNT(*)` frequencies, order by frequency then term length, `LIMIT`. -/
def getSearchSuggestions (env : Env) (p : SuggestParams) : List SearchSuggestion :=
  match env.pool with
  | none => []
  | some db =>
    if db.queryFails then []
    else
      let pfxLower := lowerStr p.pfx
      let matched := (suggestionPool db).filter (fun x => suggestionOk pfxLower x.1)
      let grouped := matched.dedup.map (fun k =>
        ({ term := k.1
           frequency := matched.count k
           kind := k.2 } : SearchSuggestion))
      (List.insertionSort suggBefore grouped).take (suggLimitEff p.limit)

/-- Cursor chaining: call `searchMessages` with the given cursor, then keep
following `nextCursor` until it is null (fuel bounds the number of pages). -/
def chainPages (env : Env) (p : SearchParams) : Nat → Option Nat → List MessageWithSummary
  | 0, _ => []
  | fuel + 1, cur =>
    let r := searchMessages env { p with cursor := cur }
    r.messages ++
      (match r.nextCursor with
       | none => []
       | some c => chainPages env p fuel (some c))

/-- Modelled from the spec words of claim C6 (its strict reading): the query
must occur, case-insensitively, in the summary text, and only when the
summary is absent may it instead occur in the raw message text. -/
def strictFallbackMatch (q : String) (r : Row) : Bool :=
  match r.summ.bind (fun s => s.summary) with
  | some t => ciContains q t
  | none => ciContains q r.msg.raw_content

/-- Modelled from the spec words of claim C6 as amended: the query occurs,
case-insensitively, in the summary text or in the raw message text. -/
def orFallbackMatch (q : String) (r : Row) : Bool :=
  (match r.summ.bind (fun s => s.summary) with
   | some t => ciContains q t
   | none => false) ||
  ciContains q r.msg.raw_content

/-- Degenerate full-text semantics for environments where the index is
absent anyway. -/
def trivSem : FtsSemantics := ⟨fun _ _ => false, fun _ _ => 0⟩

/-- Full-text semantics whose rank is the summary id (concrete stand-in for
`ts_rank` in witnesses). -/
def idRankSem : FtsSemantics := ⟨fun _ _ => true, fun s _ => (s.id : Int)⟩

/-- Full-text semantics whose rank is the negated summary id (used to
exhibit rank-driven orderings that disagree with id order). -/
def negRankSem : FtsSemantics := ⟨fun _ _ => true, fun s _ => -(s.id : Int)⟩

/-- Environment with no obtainable connection pool. -/
def noDbEnv : Env := ⟨none, trivSem⟩

/-- Two plain messages with equal timestamps, nothing else. -/
def dbPage : DB := ⟨[⟨1, 0, "a", none⟩, ⟨2, 0, "b", none⟩], [], [], [], false, false⟩

def envPage : Env := ⟨some dbPage, trivSem⟩

/-- One-page request with page size 1 against `dbPage`. -/
def pPage : SearchParams := ⟨none, none, none, some 1⟩

/-- Store with one summary carrying protocol term "Aave", flagged pending. -/
def dbPendingTerm : DB :=
  ⟨[], [⟨1, 1, none, none, some ⟨some ["Aave"], none⟩, none⟩], [],
    [⟨1, "pending"⟩], false, false⟩

def envPendingTerm : Env := ⟨some dbPendingTerm, trivSem⟩

/-- Store with one pending and one approved summary on two messages. -/
def dbReview : DB :=
  ⟨[⟨1, 10, "first raw", none⟩, ⟨2, 5, "second raw", none⟩],
    [⟨11, 1, some "T1", some "pending summary", none, some 1⟩,
     ⟨12, 2, some "T2", some "approved summary", none, some 1⟩],
    [⟨1, "Grants"⟩],
    [⟨11, "pending"⟩], false, false⟩

def envReview : Env := ⟨some dbReview, trivSem⟩

/-- Store with the full-text index available and two summarised messages. -/
def dbFts : DB :=
  ⟨[⟨1, 0, "alpha raw", none⟩, ⟨2, 0, "beta raw", none⟩],
    [⟨21, 1, some "A", some "alpha", none, none⟩,
     ⟨22, 2, some "B", some "beta", none, none⟩],
    [], [], true, false⟩

def envFts : Env := ⟨some dbFts, idRankSem⟩

/-- Store without the index, one message whose summary text does not contain
"world" while its raw text does. -/
def dbFallback : DB :=
  ⟨[⟨1, 0, "hello world", none⟩],
    [⟨31, 1, none, some "nothing", none, none⟩],
    [], [], false, false⟩

def envFallback : Env := ⟨some dbFallback, trivSem⟩

/-- Store without the index, one summarised and one summary-less message. -/
def dbFallback2 : DB :=
  ⟨[⟨1, 0, "hello world", none⟩, ⟨2, 0, "carbon credits", none⟩],
    [⟨31, 1, none, some "nothing", none, none⟩],
    [], [], false, false⟩

def envFallback2 : Env := ⟨some dbFallback2, trivSem⟩

/-- Store with the three category names of the spec scenario. -/
def dbSugg : DB :=
  ⟨[], [], [⟨1, "Governance"⟩, ⟨2, "Gov Fund"⟩, ⟨3, "Uniswap"⟩], [], false, false⟩

def envSugg : Env := ⟨some dbSugg, trivSem⟩

/-- Store with a single two-letter category name "Go". -/
def dbGo : DB := ⟨[], [], [⟨1, "Go"⟩], [], false, false⟩

def envGo : Env := ⟨some dbGo, trivSem⟩

/-- Three messages whose timestamp order disagrees with their id order. -/
def dbTsSkew : DB :=
  ⟨[⟨1, 10, "one", none⟩, ⟨2, 5, "two", none⟩, ⟨3, 7, "three", none⟩],
    [], [], [], false, false⟩

def envTsSkew : Env := ⟨some dbTsSkew, trivSem⟩

/-- Two messages with equal timestamps, summaries matched by the index, and
a rank order opposite to the id order. -/
def dbRankSkew : DB :=
  ⟨[⟨1, 0, "one", none⟩, ⟨2, 0, "two", none⟩],
    [⟨41, 1, none, some "x", none, none⟩, ⟨42, 2, none, some "x", none, none⟩],
    [], [], true, false⟩

def envRankSkew : Env := ⟨some dbRankSkew, negRankSem⟩

/-- Three messages whose timestamps increase with their ids. -/
def dbChain : DB :=
  ⟨[⟨1, 1, "one", none⟩, ⟨2, 2, "two", none⟩, ⟨3, 3, "three", none⟩],
    [], [], [], false, false⟩

def envChain : Env := ⟨some dbChain, trivSem⟩

/-- Two categories, one referenced by one visible summary and one by none;
a second summary of the first category is pending. -/
def dbCats : DB :=
  ⟨[], [⟨51, 1, none, none, none, some 1⟩, ⟨52, 2, none, none, none, some 1⟩],
    [⟨1, "Grants"⟩, ⟨2, "Research"⟩],
    [⟨52, "pending"⟩], false, false⟩

def envCats : Env := ⟨some dbCats, trivSem⟩

theorem searchMessages_some (env : Env) (db : DB) (p : SearchParams)
    (hdb : env.pool = some db) (hok : db.queryFails = false) :
    searchMessages env p =
      { messages := (searchPage env.sem db p).map projectRow
        nextCursor :=
          if decide (limitEff p < (searchFetched env.sem db p).length) &&
              !((searchPage env.sem db p).map projectRow).isEmpty then
            ((((searchPage env.sem db p).map projectRow).getLast?).map (fun m => m.id))
          else none
        total := (countRows env.sem db p).length } := by
  simp only [searchMessages, hdb, hok]
  rfl

theorem limitEff_pos (p : SearchParams) : 1 ≤ limitEff p := by
  rcases p with ⟨q, c, cur, l⟩
  cases l with
  | none => simp [limitEff]
  | some n =>
    simp only [limitEff, beq_iff_eq]
    split <;> omega

/-- Claim C5: if no connection pool can be obtained or the issued queries
fail, every read operation returns its empty value instead of throwing:
`searchMessages` returns `{ messages := [], nextCursor := none, total := 0 }`,
`getCategories` and `getSearchSuggestions` return `[]`, and
`getTotalMessageCount` returns `0`. -/
theorem C5_store_failure_empty (env : Env) (p : SearchParams) (sp : SuggestParams)
    (h : env.pool = none ∨ ∃ db, env.pool = some db ∧ db.queryFails = true) :
    searchMessages env p = ⟨[], none, 0⟩ ∧
    getCategories env = [] ∧
    getSearchSuggestions env sp = [] ∧
    getTotalMessageCount env = 0 := by
  rcases h with h | ⟨db, h, hf⟩
  · simp [searchMessages, getCategories, getSearchSuggestions, getTotalMessageCount,
      h, emptySearchResult]
  · simp [searchMessages, getCategories, getSearchSuggestions, getTotalMessageCount,
      h, hf, emptySearchResult]

theorem C5_store_failure_empty_witness :
    noDbEnv.pool = none ∧
    (searchMessages noDbEnv ⟨none, none, none, none⟩ = ⟨[], none, 0⟩ ∧
     getCategories noDbEnv = [] ∧
     getSearchSuggestions noDbEnv ⟨"a", none⟩ = [] ∧
     getTotalMessageCount noDbEnv = 0) :=
  ⟨rfl, C5_store_failure_empty noDbEnv ⟨none, none, none, none⟩ ⟨"a", none⟩ (Or.inl rfl)⟩

/-- Claim C8: `getSearchSuggestions` draws its candidate terms from all
summaries, pending ones included — its result never depends on the
review queue, and a term occurring only in a pending summary is served. -/
theorem C8_suggestions_ignore_review :
    (∀ (db : DB) (rq : List ReviewItem) (sem : FtsSemantics) (p : SuggestParams),
      getSearchSuggestions ⟨some { db with review_queue := rq }, sem⟩ p =
        getSearchSuggestions ⟨some db, sem⟩ p) ∧
    summaryPending dbPendingTerm ⟨1, 1, none, none, some ⟨some ["Aave"], none⟩, none⟩ = true ∧
    getSearchSuggestions envPendingTerm ⟨"aa", none⟩ =
      [⟨"Aave", 1, SuggestionKind.protocol⟩] := by
  refine ⟨fun db rq sem p => rfl, by decide, by decide⟩

/-- Claim C10: `searchMessages` treats falsy pagination inputs as absent —
an omitted limit and limit `0` both behave as the default limit `20`
(fetching at most 21 rows), and cursor `0` behaves as no cursor at all
(first page, shown non-empty on a sample store) rather than as the condition
`id < 0` (which would match nothing). -/
theorem C10_falsy_defaults :
    (∀ (env : Env) (q : Option String) (cs : Option (List String)) (cur : Option Nat),
      searchMessages env ⟨q, cs, cur, none⟩ = searchMessages env ⟨q, cs, cur, some 20⟩ ∧
      searchMessages env ⟨q, cs, cur, some 0⟩ = searchMessages env ⟨q, cs, cur, some 20⟩) ∧
    (∀ (env : Env) (q : Option String) (cs : Option (List String)) (l : Option Nat),
      searchMessages env ⟨q, cs, some 0, l⟩ = searchMessages env ⟨q, cs, none, l⟩) ∧
    (∀ (sem : FtsSemantics) (db : DB) (q : Option String) (cs : Option (List String))
      (cur : Option Nat), (searchFetched sem db ⟨q, cs, cur, none⟩).length ≤ 21) ∧
    (searchMessages envPage ⟨none, none, some 0, none⟩).messages ≠ [] := by
  refine ⟨fun env q cs cur => ⟨?_, ?_⟩, fun env q cs l => ?_, fun sem db q cs cur => ?_, ?_⟩
  · obtain ⟨pool, sem⟩ := env; cases pool <;> rfl
  · obtain ⟨pool, sem⟩ := env; cases pool <;> rfl
  · obtain ⟨pool, sem⟩ := env; cases pool <;> rfl
  · exact List.length_take_le _ _
  · decide

theorem searchPage_length (sem : FtsSemantics) (db : DB) (p : SearchParams)
    (h : limitEff p < (searchFetched sem db p).length) :
    ((searchPage sem db p).map projectRow).length = limitEff p := by
  simp only [searchPage, List.length_map, List.length_take]
  omega

/-- Claim C2 counterexample: with two rows and page size 1, the code sets
`nextCursor` to the id of the last row of the returned page (2), not to the
id of the extra `limit+1`-th fetched row (1), refuting the claim that
`nextCursor` equals the extra row's identifier. -/
theorem C2_nextCursor_cex :
    (searchMessages envPage pPage).nextCursor = some 2 ∧
    (searchFetched trivSem dbPage pPage).map (fun r => r.msg.id) = [2, 1] ∧
    (2 : Nat) ≠ 1 := by
  refine ⟨by decide, by decide, by decide⟩

/-- Claim C2 as amended: when more than `limit` rows are fetched (the
`limit+1` fetch returned an extra row), `nextCursor` is the identifier of
the LAST ROW OF THE RETURNED PAGE (which then has exactly `limit` rows);
when at most `limit` rows are fetched, `nextCursor` is null. -/
theorem C2_nextCursor_last_row (env : Env) (db : DB) (p : SearchParams)
    (hdb : env.pool = some db) (hok : db.queryFails = false) :
    ((searchFetched env.sem db p).length ≤ limitEff p →
      (searchMessages env p).nextCursor = none) ∧
    (limitEff p < (searchFetched env.sem db p).length →
      (searchMessages env p).nextCursor =
        (((searchMessages env p).messages.getLast?).map (fun m => m.id)) ∧
      (searchMessages env p).messages.length = limitEff p) := by
  rw [searchMessages_some env db p hdb hok]
  constructor
  · intro h
    have hlt : ¬(limitEff p < (searchFetched env.sem db p).length) := by omega
    simp [hlt]
  · intro h
    have hlen := searchPage_length env.sem db p h
    have hne : ((searchPage env.sem db p).map projectRow).isEmpty = false := by
      rw [List.isEmpty_eq_false_iff_exists_mem]
      have hpos := limitEff_pos p
      rcases List.exists_mem_of_length_pos (l := (searchPage env.sem db p).map projectRow)
        (by omega) with ⟨a, ha⟩
      exact ⟨a, ha⟩
    have hd : (decide (limitEff p < (searchFetched env.sem db p).length)) = true :=
      decide_eq_true h
    simp only [hd, hne, Bool.not_false, Bool.and_true, if_true]
    exact ⟨trivial, hlen⟩

theorem C2_nextCursor_last_row_witness :
    envPage.pool = some dbPage ∧ dbPage.queryFails = false ∧
    limitEff pPage < (searchFetched envPage.sem dbPage pPage).length ∧
    ((searchMessages envPage pPage).nextCursor =
      (((searchMessages envPage pPage).messages.getLast?).map (fun m => m.id)) ∧
     (searchMessages envPage pPage).messages.length = limitEff pPage) :=
  ⟨rfl, rfl, by decide,
    (C2_nextCursor_last_row envPage dbPage pPage rfl rfl).2 (by decide)⟩

/-- Claim C4: the rows returned by `searchMessages` are ordered by the
ORDER BY key of db.ts:533-542 — the fetched rows are pairwise ordered by
relevance rank descending, then timestamp descending, then id descending
(`rowBefore` with the `rankVal` relevance term, which is `ts_rank` exactly
when a free-text query is active and the index is available), the returned
page is a prefix-projection of those rows, and when no ranking is active the
returned records themselves are ordered by timestamp descending then id
descending. -/
theorem C4_result_ordering (env : Env) (db : DB) (p : SearchParams)
    (hdb : env.pool = some db) (hok : db.queryFails = false) :
    (searchMessages env p).messages = ((searchPage env.sem db p).map projectRow) ∧
    List.Pairwise (rowBefore (rankVal env.sem db p)) (searchFetched env.sem db p) ∧
    ((queryEff p).isSome = false ∨ db.ftsAvailable = false →
      List.Pairwise (fun a b : MessageWithSummary =>
        b.timestamp < a.timestamp ∨ (b.timestamp = a.timestamp ∧ b.id ≤ a.id))
        (searchMessages env p).messages) := by
  have hsorted : List.Pairwise (rowBefore (rankVal env.sem db p)) (searchSorted env.sem db p) :=
    List.sorted_insertionSort _ _
  have hfetched : List.Pairwise (rowBefore (rankVal env.sem db p)) (searchFetched env.sem db p) :=
    hsorted.sublist (List.take_sublist _ _)
  refine ⟨by rw [searchMessages_some env db p hdb hok], hfetched, ?_⟩
  intro hplain
  have hk : ∀ r, rankVal env.sem db p r = 0 := by
    intro r
    rcases hplain with hq | hf
    · unfold rankVal
      rcases hqe : queryEff p with _ | q
      · rfl
      · rw [hqe] at hq; simp at hq
    · unfold rankVal
      rcases hqe : queryEff p with _ | q
      · rfl
      · rw [hf]; simp
  rw [searchMessages_some env db p hdb hok]
  simp only []
  rw [List.pairwise_map]
  have hpage : List.Pairwise (rowBefore (rankVal env.sem db p)) (searchPage env.sem db p) :=
    hfetched.sublist (List.take_sublist _ _)
  refine hpage.imp ?_
  intro a b hab
  rcases hab with hlt | ⟨_, hts⟩
  · rw [hk a, hk b] at hlt; omega
  · simpa [projectRow] using hts

theorem tails_any_isEmpty (t : List Char) : (t.tails).any (fun s => s.isEmpty) = true := by
  induction t with
  | nil => rfl
  | cons c ts ih => simp [List.tails_cons, ih]

theorem likeChars_nil (t : List Char) : likeChars [] t = t.isEmpty := rfl

theorem likeChars_cons (p : Char) (ps : List Char) (t : List Char) :
    likeChars (p :: ps) t =
      if p == '%' then (t.tails).any (fun s => likeChars ps s)
      else if p == '_' then !t.isEmpty && likeChars ps t.tail
      else if p == '\\' then
        match ps with
        | [] => false
        | pe :: ps2 => (t.head?.elim false (fun c => c == pe)) && likeChars ps2 t.tail
      else (t.head?.elim false (fun c => c == p)) && likeChars ps t.tail := by
  rw [likeChars.eq_def]

theorem plainChar_spec (c : Char) (h : plainChar c = true) :
    (c == '%') = false ∧ (c == '_') = false ∧ (c == '\\') = false := by
  unfold plainChar at h
  rw [Bool.not_eq_true'] at h
  rw [Bool.or_eq_false_iff] at h
  obtain ⟨h12, h3⟩ := h
  rw [Bool.or_eq_false_iff] at h12
  exact ⟨h12.1, h12.2, h3⟩

theorem likeChars_plain_star (p : List Char) (t : List Char) (hp : p.all plainChar = true) :
    likeChars (p ++ ['%']) t = isPrefixChars p t := by
  induction p generalizing t with
  | nil =>
    show likeChars ['%'] t = true
    rw [likeChars_cons]
    simp only [beq_self_eq_true, if_true, likeChars_nil]
    exact tails_any_isEmpty t
  | cons c cs ih =>
    rw [List.all_cons, Bool.and_eq_true] at hp
    obtain ⟨hc1, hc2, hc3⟩ := plainChar_spec c hp.1
    rw [List.cons_append, likeChars_cons]
    simp only [hc1, hc2, hc3, Bool.false_eq_true, if_false]
    cases t with
    | nil => rfl
    | cons d ts =>
      show (d == c && likeChars (cs ++ ['%']) ts) = (d == c && isPrefixChars cs ts)
      rw [ih ts hp.2]

theorem tails_any_isPrefixChars (q : List Char) (t : List Char) :
    (t.tails).any (fun s => isPrefixChars q s) = containsChars q t := by
  induction t with
  | nil => simp [containsChars]
  | cons c ts ih => simp [List.tails_cons, containsChars, ih]

theorem likeChars_star_plain (q : List Char) (t : List Char) (hq : q.all plainChar = true) :
    likeChars ('%' :: (q ++ ['%'])) t = containsChars q t := by
  rw [likeChars_cons]
  simp only [beq_self_eq_true, if_true]
  rw [show (fun s => likeChars (q ++ ['%']) s) = (fun s => isPrefixChars q s) from
    funext (fun s => likeChars_plain_star q s hq)]
  exact tails_any_isPrefixChars q t

theorem plainChar_toLower (c : Char) (h : plainChar c = true) : plainChar c.toLower = true := by
  have hdef : c.toLower =
      if c.toNat ≥ 65 ∧ c.toNat ≤ 90 then Char.ofNat (c.toNat + 32) else c := rfl
  rw [hdef]
  split
  case isTrue hn =>
    have hvalid : (c.toNat + 32).isValidChar := Or.inl (by omega)
    have hofn : Char.ofNat (c.toNat + 32) = Char.ofNatAux (c.toNat + 32) hvalid :=
      dif_pos hvalid
    rw [hofn]
    have htn : (Char.ofNatAux (c.toNat + 32) hvalid).toNat = c.toNat + 32 := rfl
    have hne : ∀ d : Char, d.toNat ≠ c.toNat + 32 →
        (Char.ofNatAux (c.toNat + 32) hvalid == d) = false := by
      intro d hd
      apply beq_eq_false_iff_ne.mpr
      intro he
      exact hd (by rw [← he, htn])
    have h37 : ('%').toNat = 37 := rfl
    have h95 : ('_').toNat = 95 := rfl
    have h92 : ('\\').toNat = 92 := rfl
    unfold plainChar
    rw [hne '%' (by omega), hne '_' (by omega), hne '\\' (by omega)]
    rfl
  case isFalse => exact h

theorem lowerStr_data (s : String) : (lowerStr s).data = s.data.map Char.toLower := rfl

theorem plainPat_lowerStr (s : String) (h : plainPat s = true) :
    plainPat (lowerStr s) = true := by
  unfold plainPat at h ⊢
  rw [lowerStr_data, List.all_map, List.all_eq_true] at *
  intro c hc
  exact plainChar_toLower c (h c hc)

theorem ilike_plain (q s : String) (h : plainPat q = true) :
    ilike ("%" ++ q ++ "%") s = ciContains q s := by
  have hq : ((lowerStr q).data).all plainChar = true := plainPat_lowerStr q h
  show likeChars (lowerStr ("%" ++ q ++ "%")).data (lowerStr s).data =
    containsChars (lowerStr q).data (lowerStr s).data
  have hdata : (lowerStr ("%" ++ q ++ "%")).data = '%' :: ((lowerStr q).data ++ ['%']) := by
    rw [lowerStr_data, lowerStr_data]
    rw [String.data_append, String.data_append]
    rw [show ("%" : String).data = ['%'] from rfl]
    simp [show Char.toLower '%' = '%' from by decide]
  rw [hdata]
  exact likeChars_star_plain _ _ hq

theorem likeStr_lower_star (pfx t : String) (h : plainPat pfx = true) :
    likeStr (lowerStr pfx ++ "%") (lowerStr t) = lowerStartsWith pfx t := by
  show likeChars (lowerStr pfx ++ "%").data (lowerStr t).data = _
  have hdata : (lowerStr pfx ++ "%").data = (lowerStr pfx).data ++ ['%'] := rfl
  rw [hdata, likeChars_plain_star _ _ (plainPat_lowerStr pfx h)]
  rfl

theorem fallback_eq_or (q : String) (r : Row) (h : plainPat q = true) :
    fallbackQueryCond q r = orFallbackMatch q r := by
  unfold fallbackQueryCond orFallbackMatch
  cases r.summ with
  | none => simp [ilike_plain _ _ h]
  | some s =>
    cases s.summary with
    | none => simp [ilike_plain _ _ h]
    | some t => simp [ilike_plain _ _ h]

/-- Claim C6 counterexample: in fallback mode the query "world" returns the
row whose summary text is "nothing" — the summary is present and does not
contain the query, but the raw text does; the claim's rule (summary
substring, raw text only when the summary is absent) says this row must not
match. -/
theorem C6_fallback_cex :
    (searchMessages envFallback ⟨some "world", none, none, none⟩).messages.map
      (fun m => (m.id, m.summary)) = [(1, some "nothing")] ∧
    strictFallbackMatch "world"
      ⟨⟨1, 0, "hello world", none⟩, some ⟨31, 1, none, some "nothing", none, none⟩, none⟩ = false ∧
    ciContains "world" "nothing" = false := by
  refine ⟨by decide, by decide, by decide⟩

/-- Claim C6 as amended: when a (wildcard-free) query is given and the
full-text index is unavailable, a row matches when the query occurs
case-insensitively as a substring of the summary text OR of the raw message
text — raw-text matching is not restricted to summary-less rows; in
particular a row whose summary is null still matches exactly when the query
occurs in the raw message text. -/
theorem C6_fallback_or_match (env : Env) (db : DB) (p : SearchParams) (q : String)
    (hdb : env.pool = some db) (hok : db.queryFails = false)
    (hfts : db.ftsAvailable = false) (hq : queryEff p = some q)
    (hplain : plainPat q = true) :
    searchVisible env.sem db p = (joinRows db).filter (fun r =>
      cursorCond (cursorEff p) r &&
      (orFallbackMatch q r && categoryCond p r && !rowPending db r)) ∧
    (∀ r : Row, r.summ = none →
      fallbackQueryCond q r = ciContains q r.msg.raw_content) := by
  constructor
  · unfold searchVisible
    apply List.filter_congr
    intro r _
    unfold pageCond countCond queryCond
    rw [hq, hfts]
    simp only [Bool.false_eq_true, if_false, fallback_eq_or q r hplain]
  · intro r hr
    unfold fallbackQueryCond
    rw [hr]
    simp [ilike_plain _ _ hplain]

theorem C6_fallback_or_match_witness :
    envFallback2.pool = some dbFallback2 ∧ dbFallback2.queryFails = false ∧
    dbFallback2.ftsAvailable = false ∧
    queryEff ⟨some "world", none, none, none⟩ = some "world" ∧
    plainPat "world" = true ∧
    (searchVisible envFallback2.sem dbFallback2 ⟨some "world", none, none, none⟩ =
      (joinRows dbFallback2).filter (fun r =>
        cursorCond (cursorEff ⟨some "world", none, none, none⟩) r &&
        (orFallbackMatch "world" r && categoryCond ⟨some "world", none, none, none⟩ r &&
          !rowPending dbFallback2 r)) ∧
     (∀ r : Row, r.summ = none →
       fallbackQueryCond "world" r = ciContains "world" r.msg.raw_content)) :=
  ⟨rfl, rfl, rfl, by decide, by decide,
    C6_fallback_or_match envFallback2 dbFallback2 ⟨some "world", none, none, none⟩ "world"
      rfl rfl rfl (by decide) (by decide)⟩

theorem getSearchSuggestions_some (env : Env) (db : DB) (p : SuggestParams)
    (hdb : env.pool = some db) (hok : db.queryFails = false) :
    getSearchSuggestions env p =
      (List.insertionSort suggBefore
        ((((suggestionPool db).filter (fun x => suggestionOk (lowerStr p.pfx) x.1)).dedup).map
          (fun k =>
            ({ term := k.1
               frequency := ((suggestionPool db).filter
                 (fun x => suggestionOk (lowerStr p.pfx) x.1)).count k
               kind := k.2 } : SearchSuggestion)))).take (suggLimitEff p.limit) := by
  simp only [getSearchSuggestions, hdb, hok]
  rfl

/-- Claim C7 counterexample: the prefix is spliced into a `LIKE` pattern, so
a wildcard prefix escapes the "starts with the prefix" rule — prefix `"_"`
returns the term "Go" although its lowercase form does not start with
`"_"`. -/
theorem C7_suggestions_cex :
    getSearchSuggestions envGo ⟨"_", none⟩ = [⟨"Go", 1, SuggestionKind.category⟩] ∧
    lowerStartsWith "_" "Go" = false := by
  refine ⟨by decide, by decide⟩

/-- Claim C7 as amended: for every prefix FREE OF LIKE WILDCARD AND ESCAPE
CHARACTERS and every limit, every returned suggestion is a term of the union
pool (summaries' protocols, summaries' key terms, category names) whose
lowercase form starts with the lowercased prefix and whose length is at
least 2; its frequency is the number of occurrences of the exact term+type
pair in the pool, the list is ordered by frequency descending then term
length ascending, and at most the effective limit entries are returned. -/
theorem C7_suggestions_spec (env : Env) (db : DB) (pfx : String) (lim : Option Nat)
    (hdb : env.pool = some db) (hok : db.queryFails = false)
    (hplain : plainPat pfx = true) :
    (getSearchSuggestions env ⟨pfx, lim⟩).length ≤ suggLimitEff lim ∧
    (∀ sg ∈ getSearchSuggestions env ⟨pfx, lim⟩,
      (sg.term, sg.kind) ∈ suggestionPool db ∧
      lowerStartsWith pfx sg.term = true ∧
      2 ≤ sg.term.length ∧
      sg.frequency = (suggestionPool db).count (sg.term, sg.kind)) ∧
    List.Pairwise suggBefore (getSearchSuggestions env ⟨pfx, lim⟩) := by
  rw [getSearchSuggestions_some env db ⟨pfx, lim⟩ hdb hok]
  refine ⟨List.length_take_le _ _, ?_, ?_⟩
  · intro sg hsg
    have hsg1 := List.mem_of_mem_take hsg
    have hsg2 := (List.perm_insertionSort suggBefore _).mem_iff.mp hsg1
    obtain ⟨k, hk, rfl⟩ := List.mem_map.mp hsg2
    have hkmem := List.mem_dedup.mp hk
    obtain ⟨hkpool, hkok⟩ := List.mem_filter.mp hkmem
    unfold suggestionOk at hkok
    rw [Bool.and_eq_true] at hkok
    refine ⟨hkpool, ?_, of_decide_eq_true hkok.2, ?_⟩
    · rw [← likeStr_lower_star pfx k.1 hplain]
      exact hkok.1
    · show (List.filter _ (suggestionPool db)).count k = (suggestionPool db).count k
      exact List.count_filter (by
        unfold suggestionOk
        rw [Bool.and_eq_true]
        exact hkok)
  · exact (List.sorted_insertionSort suggBefore _).sublist (List.take_sublist _ _)

theorem C7_suggestions_spec_witness :
    envSugg.pool = some dbSugg ∧ dbSugg.queryFails = false ∧ plainPat "go" = true ∧
    ((getSearchSuggestions envSugg ⟨"go", none⟩).length ≤ suggLimitEff none ∧
     (∀ sg ∈ getSearchSuggestions envSugg ⟨"go", none⟩,
       (sg.term, sg.kind) ∈ suggestionPool dbSugg ∧
       lowerStartsWith "go" sg.term = true ∧
       2 ≤ sg.term.length ∧
       sg.frequency = (suggestionPool dbSugg).count (sg.term, sg.kind)) ∧
     List.Pairwise suggBefore (getSearchSuggestions envSugg ⟨"go", none⟩)) :=
  ⟨rfl, rfl, by decide, C7_suggestions_spec envSugg dbSugg "go" none rfl rfl (by decide)⟩

theorem mem_catRowsFor_fst (db : DB) (c : Category) (pr : Category × Option Summary)
    (h : pr ∈ catRowsFor db c) : pr.1 = c := by
  unfold catRowsFor at h
  rcases hf : db.summaries.filter
      (fun s => s.category_id == some c.id && !summaryPending db s) with _ | ⟨s0, ss0⟩ <;>
    rw [hf] at h
  · rw [List.mem_singleton] at h
    rw [h]
  · obtain ⟨s, _, rfl⟩ := List.mem_map.mp h
    rfl

theorem catRowsFor_count_self (db : DB) (c : Category) :
    ((catRowsFor db c).filter
      (fun pr => pr.1.id == c.id && pr.1.name == c.name && pr.2.isSome)).length =
    (db.summaries.filter (fun s => s.category_id == some c.id && !summaryPending db s)).length := by
  unfold catRowsFor
  rcases hf : db.summaries.filter
      (fun s => s.category_id == some c.id && !summaryPending db s) with _ | ⟨s0, ss0⟩
  · simp [hf]
  · simp [hf, List.filter_map, Function.comp_def]

theorem catRowsFor_count_other (db : DB) (c : Category) (k : Nat × String)
    (hne : c.id ≠ k.1) :
    (catRowsFor db c).filter
      (fun pr => pr.1.id == k.1 && pr.1.name == k.2 && pr.2.isSome) = [] := by
  rw [List.filter_eq_nil_iff]
  intro pr hpr
  rw [mem_catRowsFor_fst db c pr hpr]
  simp [hne]

theorem length_filter_flatMap_single {α β : Type} (l : List α) (f : α → List β)
    (p : β → Bool) (a : α) (ha : a ∈ l)
    (hother : ∀ x ∈ l, x ≠ a → (f x).filter p = [])
    (hnodup : l.Nodup) :
    ((l.flatMap f).filter p).length = ((f a).filter p).length := by
  induction l with
  | nil => cases ha
  | cons x xs ih =>
    rw [List.flatMap_cons, List.filter_append, List.length_append]
    rcases List.mem_cons.mp ha with rfl | haxs
    · have hrest : ((xs.flatMap f).filter p) = [] := by
        rw [List.filter_eq_nil_iff]
        intro b hb
        obtain ⟨y, hy, hbf⟩ := List.mem_flatMap.mp hb
        have hyne : y ≠ a := fun he => (List.nodup_cons.mp hnodup).1 (he ▸ hy)
        have hnil := hother y (List.mem_cons_of_mem _ hy) hyne
        exact List.filter_eq_nil_iff.mp hnil b hbf
      rw [hrest]
      simp
    · have hxne : x ≠ a := by
        rintro rfl
        exact (List.nodup_cons.mp hnodup).1 haxs
      rw [hother x (List.mem_cons_self x xs) hxne]
      simp only [List.length_nil, Nat.zero_add]
      exact ih haxs (fun y hy hne => hother y (List.mem_cons_of_mem _ hy) hne)
        (List.nodup_cons.mp hnodup).2

theorem getCategories_some (env : Env) (db : DB)
    (hdb : env.pool = some db) (hok : db.queryFails = false) :
    getCategories env = List.insertionSort catBefore
      (((db.categories.map (fun c => (c.id, c.name))).dedup).map (fun k =>
        ({ id := k.1
           name := k.2
           count := ((catJoinRows db).filter (fun pr =>
             pr.1.id == k.1 && pr.1.name == k.2 && pr.2.isSome)).length } : CategoryWithCount))) := by
  simp only [getCategories, hdb, hok]
  rfl

/-- Claim C9: `getCategories` returns exactly one entry per category
(categories with zero visible summaries included), each entry's count equals
the number of summaries referencing it that are not flagged pending in the
review queue, and the list is sorted by count descending.  (Stated under the
data-model invariant that category identifiers are unique.) -/
theorem C9_categories_spec (env : Env) (db : DB)
    (hdb : env.pool = some db) (hok : db.queryFails = false)
    (hids : (db.categories.map (fun c => c.id)).Nodup) :
    (List.Perm ((getCategories env).map (fun e => (e.id, e.name)))
      (db.categories.map (fun c => (c.id, c.name)))) ∧
    (∀ e ∈ getCategories env,
      e.count = (db.summaries.filter
        (fun s => s.category_id == some e.id && !summaryPending db s)).length) ∧
    List.Pairwise (fun a b => b.count ≤ a.count) (getCategories env) := by
  have hpairs : (db.categories.map (fun c => (c.id, c.name))).Nodup := by
    apply List.Nodup.of_map (f := Prod.fst)
    rw [List.map_map]
    exact hids
  have hdedup : (db.categories.map (fun c => (c.id, c.name))).dedup =
      db.categories.map (fun c => (c.id, c.name)) := List.dedup_eq_self.mpr hpairs
  have hvals : db.categories.Nodup := List.Nodup.of_map _ hids
  rw [getCategories_some env db hdb hok, hdedup, List.map_map]
  refine ⟨?_, ?_, ?_⟩
  · refine ((List.perm_insertionSort catBefore _).map _).trans ?_
    rw [List.map_map]
    have : ((fun e : CategoryWithCount => (e.id, e.name)) ∘
        ((fun k : Nat × String =>
          ({ id := k.1, name := k.2,
             count := ((catJoinRows db).filter (fun pr =>
               pr.1.id == k.1 && pr.1.name == k.2 && pr.2.isSome)).length } :
            CategoryWithCount)) ∘ (fun c : Category => (c.id, c.name)))) =
        (fun c : Category => (c.id, c.name)) := rfl
    rw [this]
  · intro e he
    have he1 := (List.perm_insertionSort catBefore _).mem_iff.mp he
    obtain ⟨c0, hc0, rfl⟩ := List.mem_map.mp he1
    show ((catJoinRows db).filter (fun pr =>
       pr.1.id == c0.id && pr.1.name == c0.name && pr.2.isSome)).length = _
    unfold catJoinRows
    rw [length_filter_flatMap_single db.categories (catRowsFor db) _ c0 hc0
      (fun x hx hne => catRowsFor_count_other db x (c0.id, c0.name)
        (fun hid => hne (List.inj_on_of_nodup_map hids hx hc0 hid)))
      hvals]
    exact catRowsFor_count_self db c0
  · exact List.sorted_insertionSort catBefore _

theorem C9_categories_spec_witness :
    envCats.pool = some dbCats ∧ dbCats.queryFails = false ∧
    (dbCats.categories.map (fun c => c.id)).Nodup ∧
    ((List.Perm ((getCategories envCats).map (fun e => (e.id, e.name)))
       (dbCats.categories.map (fun c => (c.id, c.name)))) ∧
     (∀ e ∈ getCategories envCats,
       e.count = (dbCats.summaries.filter
         (fun s => s.category_id == some e.id && !summaryPending dbCats s)).length) ∧
     List.Pairwise (fun a b => b.count ≤ a.count) (getCategories envCats)) :=
  ⟨rfl, rfl, by decide, C9_categories_spec envCats dbCats rfl rfl (by decide)⟩

theorem mem_msgRowsFor (db : DB) (m : Message) (pr : Message × Option Summary)
    (h : pr ∈ msgRowsFor db m) :
    pr.1 = m ∧
    ((pr.2 = none ∧ ∀ s ∈ db.summaries, s.message_id ≠ m.id) ∨
      (∃ s, pr.2 = some s ∧ s ∈ db.summaries ∧ s.message_id = m.id)) := by
  unfold msgRowsFor at h
  rcases hf : db.summaries.filter (fun s => s.message_id == m.id) with _ | ⟨s0, ss0⟩ <;>
    rw [hf] at h
  · rw [List.mem_singleton] at h
    subst h
    refine ⟨rfl, Or.inl ⟨rfl, ?_⟩⟩
    intro s hs hmid
    have hmem : s ∈ db.summaries.filter (fun s => s.message_id == m.id) :=
      List.mem_filter.mpr ⟨hs, by simp [hmid]⟩
    rw [hf] at hmem
    cases hmem
  · obtain ⟨s, hsmem, rfl⟩ := List.mem_map.mp h
    rw [← hf] at hsmem
    obtain ⟨hs1, hs2⟩ := List.mem_filter.mp hsmem
    exact ⟨rfl, Or.inr ⟨s, rfl, hs1, by simpa using hs2⟩⟩

theorem mem_rowsForPair (db : DB) (pr : Message × Option Summary) (r : Row)
    (h : r ∈ rowsForPair db pr) : r.msg = pr.1 ∧ r.summ = pr.2 := by
  unfold rowsForPair at h
  rcases pr with ⟨m, _ | s⟩
  · simp only at h
    rw [List.mem_singleton] at h
    subst h
    exact ⟨rfl, rfl⟩
  · simp only at h
    rcases hf : db.categories.filter (fun c => some c.id == s.category_id) with _ | ⟨c0, cs0⟩ <;>
      rw [hf] at h
    · rw [List.mem_singleton] at h
      subst h
      exact ⟨rfl, rfl⟩
    · obtain ⟨c, _, rfl⟩ := List.mem_map.mp h
      exact ⟨rfl, rfl⟩

theorem mem_joinRows_char (db : DB) (r : Row) (h : r ∈ joinRows db) :
    (r.summ = none ∧ ∀ s ∈ db.summaries, s.message_id ≠ r.msg.id) ∨
    (∃ s, r.summ = some s ∧ s ∈ db.summaries ∧ s.message_id = r.msg.id) := by
  unfold joinRows at h
  obtain ⟨pr, hpr, hr⟩ := List.mem_flatMap.mp h
  obtain ⟨hm, hs⟩ := mem_rowsForPair db pr r hr
  unfold msgSummJoin at hpr
  obtain ⟨m, _, hprm⟩ := List.mem_flatMap.mp hpr
  obtain ⟨hp1, hrest⟩ := mem_msgRowsFor db m pr hprm
  rw [hs, hm, hp1]
  exact hrest

theorem rowPending_eq_any (db : DB) (r : Row) (hr : r ∈ joinRows db)
    (huniq : ∀ s1 ∈ db.summaries, ∀ s2 ∈ db.summaries,
      s1.message_id = s2.message_id → s1 = s2) :
    rowPending db r =
      db.summaries.any (fun s => s.message_id == r.msg.id && summaryPending db s) := by
  rcases mem_joinRows_char db r hr with ⟨hnone, hno⟩ | ⟨s, hsome, hmem, hid⟩
  · unfold rowPending
    rw [hnone]
    symm
    rw [List.any_eq_false]
    intro s hs
    simp [hno s hs]
  · unfold rowPending
    rw [hsome]
    show summaryPending db s =
      (db.summaries.any fun s => s.message_id == r.msg.id && summaryPending db s)
    cases hp : summaryPending db s
    · symm
      rw [List.any_eq_false]
      intro s2 hs2
      rw [Bool.not_eq_true, Bool.and_eq_false_iff]
      by_cases hideq : s2.message_id = r.msg.id
      · right
        have : s2 = s := huniq s2 hs2 s hmem (by rw [hideq, hid])
        rw [this, hp]
      · left
        simp [hideq]
    · symm
      rw [List.any_eq_true]
      exact ⟨s, hmem, by simp [hid, hp]⟩

/-- Claim C1: for every call to `searchMessages`, no message whose summary is
flagged 'pending' in the review queue appears among the returned rows, and
the returned total counts exactly the filter-matching join rows whose
message has no pending-flagged summary.  (Stated under the data-model
invariant that a message has at most one summary.) -/
theorem C1_no_pending_visible (env : Env) (db : DB) (p : SearchParams)
    (hdb : env.pool = some db) (hok : db.queryFails = false)
    (huniq : ∀ s1 ∈ db.summaries, ∀ s2 ∈ db.summaries,
      s1.message_id = s2.message_id → s1 = s2) :
    (∀ m ∈ (searchMessages env p).messages, ∀ s ∈ db.summaries,
      s.message_id = m.id → summaryPending db s = false) ∧
    (searchMessages env p).total = ((joinRows db).filter (fun r =>
      queryCond env.sem db p r && categoryCond p r &&
      !(db.summaries.any (fun s => s.message_id == r.msg.id && summaryPending db s)))).length := by
  constructor
  · intro m hm s hs hsid
    rw [searchMessages_some env db p hdb hok] at hm
    simp only at hm
    obtain ⟨r, hrpage, rfl⟩ := List.mem_map.mp hm
    have hrfetch : r ∈ searchFetched env.sem db p := List.mem_of_mem_take hrpage
    have hrsorted : r ∈ searchSorted env.sem db p := List.mem_of_mem_take hrfetch
    have hrvis : r ∈ searchVisible env.sem db p :=
      (List.perm_insertionSort _ _).mem_iff.mp hrsorted
    obtain ⟨hrjoin, hrcond⟩ := List.mem_filter.mp hrvis
    unfold pageCond countCond at hrcond
    rw [Bool.and_eq_true, Bool.and_eq_true, Bool.and_eq_true] at hrcond
    have hnp : rowPending db r = false := by
      have := hrcond.2.2
      rwa [Bool.not_eq_true'] at this
    rw [rowPending_eq_any db r hrjoin huniq, List.any_eq_false] at hnp
    have := hnp s hs
    rw [Bool.not_eq_true, Bool.and_eq_false_iff] at this
    rcases this with h1 | h2
    · exfalso
      rw [beq_eq_false_iff_ne] at h1
      exact h1 hsid
    · exact h2
  · rw [searchMessages_some env db p hdb hok]
    simp only
    unfold countRows
    refine congrArg List.length (List.filter_congr ?_)
    intro r hr
    unfold countCond
    rw [rowPending_eq_any db r hr huniq]

theorem C1_no_pending_visible_witness :
    envReview.pool = some dbReview ∧ dbReview.queryFails = false ∧
    (∀ s1 ∈ dbReview.summaries, ∀ s2 ∈ dbReview.summaries,
      s1.message_id = s2.message_id → s1 = s2) ∧
    ((∀ m ∈ (searchMessages envReview ⟨none, none, none, none⟩).messages,
       ∀ s ∈ dbReview.summaries,
       s.message_id = m.id → summaryPending dbReview s = false) ∧
     (searchMessages envReview ⟨none, none, none, none⟩).total =
       ((joinRows dbReview).filter (fun r =>
         queryCond envReview.sem dbReview ⟨none, none, none, none⟩ r &&
         categoryCond ⟨none, none, none, none⟩ r &&
         !(dbReview.summaries.any (fun s =>
           s.message_id == r.msg.id && summaryPending dbReview s)))).length) :=
  ⟨rfl, rfl, by decide,
    C1_no_pending_visible envReview dbReview ⟨none, none, none, none⟩ rfl rfl (by decide)⟩

theorem searchVisible_cursor (sem : FtsSemantics) (db : DB) (p : SearchParams) :
    searchVisible sem db p = (countRows sem db p).filter (cursorCond (cursorEff p)) := by
  unfold searchVisible countRows pageCond
  rw [List.filter_filter]

theorem cursorEff_update (p : SearchParams) (cur : Option Nat)
    (hwf : cur = none ∨ ∃ c, cur = some c ∧ 0 < c) :
    cursorEff { p with cursor := cur } = cur := by
  rcases hwf with rfl | ⟨c, rfl, hc⟩
  · rfl
  · show (if c == 0 then none else some c) = some c
    have : (c == 0) = false := by simp; omega
    rw [this]
    rfl

theorem rankVal_zero (sem : FtsSemantics) (db : DB) (p : SearchParams)
    (hnofts : queryEff p = none ∨ db.ftsAvailable = false) (r : Row) :
    rankVal sem db p r = 0 := by
  unfold rankVal
  rcases hqe : queryEff p with _ | q
  · rfl
  · rcases hnofts with hq | hf
    · rw [hqe] at hq
      cases hq
    · rw [hf]
      simp

theorem sorted_idDesc (sem : FtsSemantics) (db : DB) (p : SearchParams)
    (hnofts : queryEff p = none ∨ db.ftsAvailable = false)
    (hmono : ∀ a ∈ countRows sem db p, ∀ b ∈ countRows sem db p,
      a.msg.id < b.msg.id → a.msg.timestamp ≤ b.msg.timestamp)
    (hnodup : ((countRows sem db p).map (fun r => r.msg.id)).Nodup) :
    List.Pairwise (fun a b : Row => b.msg.id < a.msg.id) (searchSorted sem db p) := by
  have hsort : List.Pairwise (rowBefore (rankVal sem db p)) (searchSorted sem db p) :=
    List.sorted_insertionSort _ _
  have hperm : List.Perm (searchSorted sem db p) (searchVisible sem db p) :=
    List.perm_insertionSort _ _
  have hvisC : ∀ r ∈ searchVisible sem db p, r ∈ countRows sem db p := by
    intro r hr
    rw [searchVisible_cursor] at hr
    exact (List.mem_filter.mp hr).1
  have hsubC : ∀ r ∈ searchSorted sem db p, r ∈ countRows sem db p :=
    fun r hr => hvisC r (hperm.mem_iff.mp hr)
  have hndvis : ((searchVisible sem db p).map (fun r => r.msg.id)).Nodup := by
    rw [searchVisible_cursor]
    exact List.Nodup.sublist ((List.filter_sublist _).map _) hnodup
  have hnds : ((searchSorted sem db p).map (fun r => r.msg.id)).Nodup :=
    ((hperm.map _).symm).nodup hndvis
  have hne : List.Pairwise (fun a b : Row => a.msg.id ≠ b.msg.id) (searchSorted sem db p) :=
    List.pairwise_map.mp hnds
  refine (hsort.and hne).imp_of_mem ?_
  intro a b ha hb hab
  obtain ⟨hbef, hneq⟩ := hab
  unfold rowBefore at hbef
  rw [rankVal_zero sem db p hnofts a, rankVal_zero sem db p hnofts b] at hbef
  rcases Nat.lt_trichotomy a.msg.id b.msg.id with hlt | heq | hgt
  · have hts := hmono a (hsubC a ha) b (hsubC b hb) hlt
    omega
  · exact absurd heq hneq
  · exact hgt

theorem drop_filter_of_idDesc (l : List Row)
    (hl : List.Pairwise (fun a b : Row => b.msg.id < a.msg.id) l) :
    ∀ (n : Nat) (hn : n < l.length),
      l.drop (n + 1) = l.filter (fun r => decide (r.msg.id < (l.get ⟨n, hn⟩).msg.id)) := by
  induction l with
  | nil =>
    intro n hn
    simp at hn
  | cons x xs ih =>
    intro n hn
    cases n with
    | zero =>
      show xs = List.filter _ (x :: xs)
      rw [List.filter_cons]
      have hx : decide (x.msg.id < ((x :: xs).get ⟨0, hn⟩).msg.id) = false := by
        simp [List.get]
      rw [hx]
      simp only [Bool.false_eq_true, if_false]
      symm
      rw [List.filter_eq_self]
      intro y hy
      exact decide_eq_true ((List.pairwise_cons.mp hl).1 y hy)
    | succ n =>
      have hn' : n < xs.length := by simpa using hn
      have hget : ((x :: xs).get ⟨n + 1, hn⟩) = xs.get ⟨n, hn'⟩ := rfl
      show xs.drop (n + 1) = List.filter _ (x :: xs)
      rw [List.filter_cons]
      have hpiv : (xs.get ⟨n, hn'⟩) ∈ xs := List.get_mem xs n hn'
      have hx : decide (x.msg.id < ((x :: xs).get ⟨n + 1, hn⟩).msg.id) = false := by
        rw [hget]
        have h2 := (List.pairwise_cons.mp hl).1 _ hpiv
        simp at h2 ⊢
        omega
      rw [hx]
      simp only [Bool.false_eq_true, if_false, hget]
      exact ih (List.pairwise_cons.mp hl).2 n hn'

theorem chain_spec (env : Env) (db : DB) (p : SearchParams)
    (hdb : env.pool = some db) (hok : db.queryFails = false)
    (hnofts : queryEff p = none ∨ db.ftsAvailable = false)
    (hmono : ∀ a ∈ countRows env.sem db p, ∀ b ∈ countRows env.sem db p,
      a.msg.id < b.msg.id → a.msg.timestamp ≤ b.msg.timestamp)
    (hnodup : ((countRows env.sem db p).map (fun r => r.msg.id)).Nodup)
    (hpos : ∀ r ∈ countRows env.sem db p, 0 < r.msg.id) :
    ∀ (fuel : Nat) (cur : Option Nat),
      (cur = none ∨ ∃ c, cur = some c ∧ 0 < c) →
      ((countRows env.sem db p).filter (cursorCond cur)).length < fuel →
      List.Perm (chainPages env p fuel cur)
        (((countRows env.sem db p).filter (cursorCond cur)).map projectRow) ∧
      List.Pairwise (fun a b : MessageWithSummary => b.id < a.id)
        (chainPages env p fuel cur) := by
  intro fuel
  induction fuel with
  | zero =>
    intro cur hwf hlen
    omega
  | succ fuel ih =>
    intro cur hwf hlen
    have hlE : limitEff { p with cursor := cur } = limitEff p := rfl
    have hsm := searchMessages_some env db { p with cursor := cur } hdb hok
    have hvis : searchVisible env.sem db { p with cursor := cur } =
        (countRows env.sem db p).filter (cursorCond cur) := by
      rw [searchVisible_cursor env.sem db _, cursorEff_update p cur hwf]
      rfl
    have hperm : List.Perm (searchSorted env.sem db { p with cursor := cur })
        ((countRows env.sem db p).filter (cursorCond cur)) := by
      rw [← hvis]
      exact List.perm_insertionSort
        (rowBefore (rankVal env.sem db { p with cursor := cur }))
        (searchVisible env.sem db { p with cursor := cur })
    have hlenS : (searchSorted env.sem db { p with cursor := cur }).length =
        ((countRows env.sem db p).filter (cursorCond cur)).length := hperm.length_eq
    have hdesc : List.Pairwise (fun a b : Row => b.msg.id < a.msg.id)
        (searchSorted env.sem db { p with cursor := cur }) :=
      sorted_idDesc env.sem db { p with cursor := cur } hnofts hmono hnodup
    have hchain : chainPages env p (fuel + 1) cur =
        (searchMessages env { p with cursor := cur }).messages ++
          (match (searchMessages env { p with cursor := cur }).nextCursor with
           | none => []
           | some c => chainPages env p fuel (some c)) := rfl
    have hLpos := limitEff_pos p
    by_cases hle : ((countRows env.sem db p).filter (cursorCond cur)).length ≤ limitEff p
    · -- terminal page: everything fits
      have hSle : (searchSorted env.sem db { p with cursor := cur }).length ≤ limitEff p := by
        omega
      have hfet : searchFetched env.sem db { p with cursor := cur } =
          searchSorted env.sem db { p with cursor := cur } := by
        show (searchSorted env.sem db { p with cursor := cur }).take (limitEff p + 1) = _
        exact List.take_of_length_le (by omega)
      have hpage : searchPage env.sem db { p with cursor := cur } =
          searchSorted env.sem db { p with cursor := cur } := by
        show (searchFetched env.sem db { p with cursor := cur }).take (limitEff p) = _
        rw [hfet]
        exact List.take_of_length_le hSle
      have hnc : (searchMessages env { p with cursor := cur }).nextCursor = none := by
        rw [hsm]
        simp only
        have hd : decide (limitEff { p with cursor := cur } <
            (searchFetched env.sem db { p with cursor := cur }).length) = false := by
          rw [hlE, hfet]
          exact decide_eq_false (by omega)
        rw [hd]
        simp
      have hmsgs : (searchMessages env { p with cursor := cur }).messages =
          (searchSorted env.sem db { p with cursor := cur }).map projectRow := by
        rw [hsm]
        simp only
        rw [hpage]
      constructor
      · rw [hchain, hnc, hmsgs]
        simp only [List.append_nil]
        exact hperm.map projectRow
      · rw [hchain, hnc, hmsgs]
        simp only [List.append_nil]
        rw [List.pairwise_map]
        exact hdesc
    · -- a full page plus an extra fetched row
      have hVgt : limitEff p < ((countRows env.sem db p).filter (cursorCond cur)).length := by
        omega
      have hSgt : limitEff p < (searchSorted env.sem db { p with cursor := cur }).length := by
        omega
      have hfetlen : (searchFetched env.sem db { p with cursor := cur }).length =
          limitEff p + 1 := by
        show ((searchSorted env.sem db { p with cursor := cur }).take (limitEff p + 1)).length = _
        rw [List.length_take]
        omega
      have hpage : searchPage env.sem db { p with cursor := cur } =
          (searchSorted env.sem db { p with cursor := cur }).take (limitEff p) := by
        show ((searchSorted env.sem db { p with cursor := cur }).take
          (limitEff p + 1)).take (limitEff p) = _
        rw [List.take_take]
        congr 1
        omega
      have hpagelen : (searchPage env.sem db { p with cursor := cur }).length = limitEff p := by
        rw [hpage, List.length_take]
        omega
      have hL1 : limitEff p - 1 < (searchSorted env.sem db { p with cursor := cur }).length := by
        omega
      have hlast : (((searchPage env.sem db { p with cursor := cur }).map projectRow).getLast?) =
          some (projectRow ((searchSorted env.sem db { p with cursor := cur }).get
            ⟨limitEff p - 1, hL1⟩)) := by
        rw [List.getLast?_eq_getElem?, List.length_map, hpagelen, List.getElem?_map, hpage,
          List.getElem?_take_of_lt (by omega : limitEff p - 1 < limitEff p),
          List.getElem?_eq_getElem hL1]
        rfl
      have hempty : (((searchPage env.sem db { p with cursor := cur }).map
          projectRow).isEmpty) = false := by
        rw [List.isEmpty_eq_false_iff_exists_mem]
        rcases List.exists_mem_of_length_pos
          (l := (searchPage env.sem db { p with cursor := cur }).map projectRow)
          (by rw [List.length_map, hpagelen]; omega) with ⟨a, ha⟩
        exact ⟨a, ha⟩
      have hnc : (searchMessages env { p with cursor := cur }).nextCursor =
          some (((searchSorted env.sem db { p with cursor := cur }).get
            ⟨limitEff p - 1, hL1⟩).msg.id) := by
        rw [hsm]
        simp only
        have hd : decide (limitEff { p with cursor := cur } <
            (searchFetched env.sem db { p with cursor := cur }).length) = true := by
          rw [hlE, hfetlen]
          exact decide_eq_true (by omega)
        rw [hd, hempty, hlast]
        rfl
      have hpivS : (searchSorted env.sem db { p with cursor := cur }).get
          ⟨limitEff p - 1, hL1⟩ ∈ searchSorted env.sem db { p with cursor := cur } :=
        List.get_mem _ _ hL1
      have hpivV : (searchSorted env.sem db { p with cursor := cur }).get
          ⟨limitEff p - 1, hL1⟩ ∈ (countRows env.sem db p).filter (cursorCond cur) :=
        hperm.mem_iff.mp hpivS
      have hpivC : (searchSorted env.sem db { p with cursor := cur }).get
          ⟨limitEff p - 1, hL1⟩ ∈ countRows env.sem db p := (List.mem_filter.mp hpivV).1
      have hpivCur : cursorCond cur ((searchSorted env.sem db { p with cursor := cur }).get
          ⟨limitEff p - 1, hL1⟩) = true := (List.mem_filter.mp hpivV).2
      have hcpos : 0 < ((searchSorted env.sem db { p with cursor := cur }).get
          ⟨limitEff p - 1, hL1⟩).msg.id := hpos _ hpivC
      have hdrop : (searchSorted env.sem db { p with cursor := cur }).drop (limitEff p) =
          (searchSorted env.sem db { p with cursor := cur }).filter
            (cursorCond (some (((searchSorted env.sem db { p with cursor := cur }).get
              ⟨limitEff p - 1, hL1⟩).msg.id))) := by
        have h := drop_filter_of_idDesc _ hdesc (limitEff p - 1) hL1
        have heq : limitEff p - 1 + 1 = limitEff p := by omega
        rw [heq] at h
        exact h
      have hVC : (countRows env.sem db p).filter
            (cursorCond (some (((searchSorted env.sem db { p with cursor := cur }).get
              ⟨limitEff p - 1, hL1⟩).msg.id))) =
          ((countRows env.sem db p).filter (cursorCond cur)).filter
            (cursorCond (some (((searchSorted env.sem db { p with cursor := cur }).get
              ⟨limitEff p - 1, hL1⟩).msg.id))) := by
        rw [List.filter_filter]
        apply List.filter_congr
        intro r hrC
        cases hcc : cursorCond (some (((searchSorted env.sem db { p with cursor := cur }).get
            ⟨limitEff p - 1, hL1⟩).msg.id)) r
        · simp
        · have hrlt : r.msg.id < ((searchSorted env.sem db { p with cursor := cur }).get
              ⟨limitEff p - 1, hL1⟩).msg.id := of_decide_eq_true hcc
          have hcr : cursorCond cur r = true := by
            rcases hwf with rfl | ⟨c0, rfl, hc0⟩
            · rfl
            · have hplt := of_decide_eq_true hpivCur
              exact decide_eq_true (by omega)
          rw [hcr]
          simp
      have hfillen : ((searchSorted env.sem db { p with cursor := cur }).filter
          (cursorCond (some (((searchSorted env.sem db { p with cursor := cur }).get
            ⟨limitEff p - 1, hL1⟩).msg.id)))).length =
          (searchSorted env.sem db { p with cursor := cur }).length - limitEff p := by
        rw [← hdrop, List.length_drop]
      have hlen' : ((countRows env.sem db p).filter
          (cursorCond (some (((searchSorted env.sem db { p with cursor := cur }).get
            ⟨limitEff p - 1, hL1⟩).msg.id)))).length < fuel := by
        rw [hVC]
        have h2 := (hperm.filter (cursorCond (some (((searchSorted env.sem db
          { p with cursor := cur }).get ⟨limitEff p - 1, hL1⟩).msg.id)))).length_eq
        omega
      have hih := ih (some (((searchSorted env.sem db { p with cursor := cur }).get
        ⟨limitEff p - 1, hL1⟩).msg.id)) (Or.inr ⟨_, rfl, hcpos⟩) hlen'
      have hnext : List.Perm (chainPages env p fuel
          (some (((searchSorted env.sem db { p with cursor := cur }).get
            ⟨limitEff p - 1, hL1⟩).msg.id)))
          (((searchSorted env.sem db { p with cursor := cur }).drop (limitEff p)).map
            projectRow) := by
        refine hih.1.trans ?_
        rw [hVC]
        refine (List.Perm.map projectRow (hperm.filter _).symm).trans ?_
        rw [← hdrop]
      have hmsgs : (searchMessages env { p with cursor := cur }).messages =
          ((searchSorted env.sem db { p with cursor := cur }).take (limitEff p)).map
            projectRow := by
        rw [hsm]
        simp only
        rw [hpage]
      constructor
      · rw [hchain, hnc, hmsgs]
        refine ((List.Perm.refl _).append hnext).trans ?_
        rw [← List.map_append, List.take_append_drop]
        exact hperm.map projectRow
      · rw [hchain, hnc, hmsgs]
        rw [List.pairwise_append]
        refine ⟨?_, hih.2, ?_⟩
        · rw [List.pairwise_map]
          exact hdesc.sublist (List.take_sublist _ _)
        · intro x hx y hy
          obtain ⟨rx, hrx, rfl⟩ := List.mem_map.mp hx
          have hy' : y ∈ ((searchSorted env.sem db { p with cursor := cur }).drop
              (limitEff p)).map projectRow := hnext.mem_iff.mp hy
          obtain ⟨ry, hry, rfl⟩ := List.mem_map.mp hy'
          have hS : List.Pairwise (fun a b : Row => b.msg.id < a.msg.id)
              ((searchSorted env.sem db { p with cursor := cur }).take (limitEff p) ++
                (searchSorted env.sem db { p with cursor := cur }).drop (limitEff p)) := by
            rw [List.take_append_drop]
            exact hdesc
          exact (List.pairwise_append.mp hS).2.2 rx hrx ry hry

/-- Claim C3 counterexample: chaining breaks when the sort key disagrees with
the identifier order.  With timestamps not monotone in ids (`dbTsSkew`) the
chained concatenation is `[1, 3, 1, 2]` — id 1 is returned twice; with
full-text ranking active and ranks opposite to ids (`dbRankSkew`) the chain
returns only `[1]` although two visible rows match — an omission. -/
theorem C3_chain_cex :
    ((chainPages envTsSkew ⟨none, none, none, some 2⟩ 4 none).map (fun m => m.id) =
      [1, 3, 1, 2] ∧
     ¬((chainPages envTsSkew ⟨none, none, none, some 2⟩ 4 none).map
        (fun m => m.id)).Nodup) ∧
    ((chainPages envRankSkew ⟨some "x", none, none, some 1⟩ 4 none).map (fun m => m.id) =
      [1] ∧
     (countRows negRankSem dbRankSkew ⟨some "x", none, none, some 1⟩).length = 2) := by
  refine ⟨⟨by decide, by decide⟩, by decide, by decide⟩

/-- Claim C3 as amended: for a fixed store and filters, starting from
cursor null and following `nextCursor` until null yields pages whose
concatenation is a permutation of exactly the visible filtered rows (no
duplicates, no omissions) in strictly decreasing identifier order — PROVIDED
no full-text ranking is active (no free-text query, or index unavailable),
message timestamps are monotone non-decreasing in identifiers (so the
`ORDER BY timestamp DESC, id DESC` key agrees with descending ids, with
identifiers unique among visible rows), and identifiers are positive (a
zero identifier would collide with the falsy-cursor convention). -/
theorem C3_chain_exact (env : Env) (db : DB) (p : SearchParams)
    (hdb : env.pool = some db) (hok : db.queryFails = false)
    (hnofts : queryEff p = none ∨ db.ftsAvailable = false)
    (hmono : ∀ a ∈ countRows env.sem db p, ∀ b ∈ countRows env.sem db p,
      a.msg.id < b.msg.id → a.msg.timestamp ≤ b.msg.timestamp)
    (hnodup : ((countRows env.sem db p).map (fun r => r.msg.id)).Nodup)
    (hpos : ∀ r ∈ countRows env.sem db p, 0 < r.msg.id) :
    List.Perm (chainPages env p ((countRows env.sem db p).length + 1) none)
      ((countRows env.sem db p).map projectRow) ∧
    List.Pairwise (fun a b : MessageWithSummary => b.id < a.id)
      (chainPages env p ((countRows env.sem db p).length + 1) none) := by
  have hfil : (countRows env.sem db p).filter (cursorCond none) = countRows env.sem db p :=
    List.filter_eq_self.mpr (fun a _ => rfl)
  have h := chain_spec env db p hdb hok hnofts hmono hnodup hpos
    ((countRows env.sem db p).length + 1) none (Or.inl rfl) (by rw [hfil]; omega)
  rw [hfil] at h
  exact h

theorem C3_chain_exact_witness :
    envChain.pool = some dbChain ∧ dbChain.queryFails = false ∧
    (queryEff ⟨none, none, none, some 2⟩ = none ∨ dbChain.ftsAvailable = false) ∧
    (∀ a ∈ countRows envChain.sem dbChain ⟨none, none, none, some 2⟩,
      ∀ b ∈ countRows envChain.sem dbChain ⟨none, none, none, some 2⟩,
      a.msg.id < b.msg.id → a.msg.timestamp ≤ b.msg.timestamp) ∧
    ((countRows envChain.sem dbChain ⟨none, none, none, some 2⟩).map
      (fun r => r.msg.id)).Nodup ∧
    (∀ r ∈ countRows envChain.sem dbChain ⟨none, none, none, some 2⟩, 0 < r.msg.id) ∧
    (List.Perm (chainPages envChain ⟨none, none, none, some 2⟩
        ((countRows envChain.sem dbChain ⟨none, none, none, some 2⟩).length + 1) none)
      ((countRows envChain.sem dbChain ⟨none, none, none, some 2⟩).map projectRow) ∧
     List.Pairwise (fun a b : MessageWithSummary => b.id < a.id)
       (chainPages envChain ⟨none, none, none, some 2⟩
         ((countRows envChain.sem dbChain ⟨none, none, none, some 2⟩).length + 1) none)) :=
  ⟨rfl, rfl, Or.inl rfl, by decide, by decide, by decide,
    C3_chain_exact envChain dbChain ⟨none, none, none, some 2⟩ rfl rfl (Or.inl rfl)
      (by decide) (by decide) (by decide)⟩

theorem C4_result_ordering_witness :
    envFts.pool = some dbFts ∧ dbFts.queryFails = false ∧
    ((searchMessages envFts ⟨some "beta", none, none, none⟩).messages =
      ((searchPage envFts.sem dbFts ⟨some "beta", none, none, none⟩).map projectRow) ∧
     List.Pairwise (rowBefore (rankVal envFts.sem dbFts ⟨some "beta", none, none, none⟩))
       (searchFetched envFts.sem dbFts ⟨some "beta", none, none, none⟩) ∧
     ((queryEff ⟨some "beta", none, none, none⟩).isSome = false ∨ dbFts.ftsAvailable = false →
       List.Pairwise (fun a b : MessageWithSummary =>
         b.timestamp < a.timestamp ∨ (b.timestamp = a.timestamp ∧ b.id ≤ a.id))
         (searchMessages envFts ⟨some "beta", none, none, none⟩).messages)) :=
  ⟨rfl, rfl, C4_result_ordering envFts dbFts ⟨some "beta", none, none, none⟩ rfl rfl⟩

end GrantWire
